import Mathlib

/-!
Shallow embedding of `libs/common/bitcoin/liquid/psetview.py`: the Liquid
PSET stream view and its segwit sighash engine.

Bytes are modelled as `List Nat` (each element a byte value), a seekable
stream as a byte list together with a cursor position.  Python exceptions
(`PSBTError`, `ValueError` from the sighash-flag decoder, assertion errors
on short reads, `NotImplementedError`) become the `Except PErr` monad.
SHA-256 is treated symbolically: digests live in the free algebra `BStr`
with constructors for raw bytes, concatenation and the hash itself, so the
theorems speak about exactly which bytes enter each digest.

Collaborators that live outside this file's source (the generic PSBT
container, the compact-size codec, the record serializers and the
sighash-flag decoder) are modelled from the spec; each such definition
carries a doc comment saying so.
-/

/-- Error conditions of the embedded code: `invalidIndex` models
`PSBTError("Invalid input index")`, `formatError` models stream/format
failures (short reads, bad flag combinations), `notImplemented` models
`NotImplementedError`. -/
inductive PErr where
  | invalidIndex : PErr
  | formatError : PErr
  | notImplemented : PErr
deriving DecidableEq, Repr

/-- A seekable byte stream: the underlying bytes and the cursor. -/
structure ByteStream where
  data : List Nat
  pos : Nat
deriving DecidableEq, Repr

/-- `stream.read(n)`: return up to `n` bytes from the cursor and advance it
by the number of bytes actually read (like a Python stream, a short read
returns fewer bytes without failing). -/
def ByteStream.read (s : ByteStream) (n : Nat) : List Nat × ByteStream :=
  let bs := (s.data.drop s.pos).take n
  (bs, { s with pos := s.pos + bs.length })

/-- `stream.seek(n, 1)`: relative seek; like Python's `BytesIO`, seeking
past the end succeeds and just moves the cursor. -/
def ByteStream.seekRel (s : ByteStream) (n : Nat) : ByteStream :=
  { s with pos := s.pos + n }

/-- `int.from_bytes(bs, "little")`. -/
def fromLE (bs : List Nat) : Nat :=
  bs.foldr (fun b acc => b + 256 * acc) 0

/-- `n.to_bytes(k, "little")` (values are u32/u64 at every call site). -/
def toLE : Nat → Nat → List Nat
  | 0, _ => []
  | k + 1, n => (n % 256) :: toLE k (n / 256)

/-- `n.to_bytes(k, "big")`. -/
def toBE (k n : Nat) : List Nat :=
  (toLE k n).reverse

/-- `skip_commitment(stream)` from the source: read one tag byte (asserting
it was actually read), then skip 0, 8 or 32 payload bytes for tags `0x00`,
`0x01` and anything else, returning the total byte count consumed. -/
def skip_commitment (s : ByteStream) : Except PErr (Nat × ByteStream) :=
  let (c, s1) := s.read 1
  if c.length ≠ 1 then .error .formatError
  else if c = [0x00] then .ok (1, s1)
  else if c = [0x01] then .ok (9, s1.seekRel 8)
  else .ok (33, s1.seekRel 32)

/-- The raw little-endian `vout` field of the input that starts at the
cursor of `s`: the 4 bytes following the 32-byte txid. -/
def voutAt (s : ByteStream) : Nat :=
  fromLE ((s.data.drop (s.pos + 32)).take 4)

/-- `GlobalLTransactionView._skip_input`: skip the 32-byte txid, read the
4-byte little-endian `vout`, skip the empty scriptsig and the sequence
(5 bytes); when `vout` is not `0xFFFFFFFF` and its bit 31 (issuance flag)
is set, additionally skip the 64-byte nonce+entropy and the amount and
token commitments.  Returns the total byte count it accounts for. -/
def skip_input (s : ByteStream) : Except PErr (Nat × ByteStream) :=
  let off := 32 + 4 + 5
  let s := s.seekRel 32
  let (voutBytes, s) := s.read 4
  let vout := fromLE voutBytes
  let s := s.seekRel 5
  if vout ≠ 0xFFFFFFFF then
    let has_issuance := vout &&& (1 <<< 31) ≠ 0
    if has_issuance then do
      let s := s.seekRel (32 + 32)
      let (c1, s) ← skip_commitment s
      let (c2, s) ← skip_commitment s
      return (off + 64 + c1 + c2, s)
    else
      return (off, s)
  else
    return (off, s)

/-- Modelled from the spec: the compact-size (varint) codec collaborator
(§6, `read(stream) -> u64`), i.e. the standard Bitcoin compact-size
encoding; fails on a short read. -/
def compactReadFrom (s : ByteStream) : Except PErr (Nat × ByteStream) :=
  let (b, s1) := s.read 1
  match b with
  | [v] =>
    if v < 0xfd then .ok (v, s1)
    else
      let n := if v = 0xfd then 2 else if v = 0xfe then 4 else 8
      let (bs, s2) := s1.read n
      if bs.length = n then .ok (fromLE bs, s2) else .error .formatError
  | _ => .error .formatError

/-- Modelled from the spec: the compact-size codec collaborator's
`encoded_length(value) -> usize` (length of `compact.to_bytes`). -/
def compactEncodedLength (n : Nat) : Nat :=
  if n < 0xfd then 1
  else if n < 0x10000 then 3
  else if n < 0x100000000 then 5
  else 9

/-- `LTransactionInput`: the fields the source constructs and reads
(`txid` in internal byte order, `vout` and `sequence` as u32). -/
structure LTransactionInput where
  txid : List Nat
  vout : Nat
  sequence : Nat
deriving DecidableEq, Repr

/-- An output record as the sighash engine consumes it.  Modelled from the
spec: the external output record collaborator only exposes serialized
byte strings (`serialize()`, `witness.serialize()`,
`witness.range_proof.serialize()`, `witness.surjection_proof.serialize()`),
so those byte strings are the model's fields. -/
structure LTransactionOutput where
  serialized : List Nat
  witnessSerialized : List Nat
  rangeProofSerialized : List Nat
  surjProofSerialized : List Nat
deriving DecidableEq, Repr

/-- Modelled from the spec: the per-output PSET scope record, exposing the
plain (`vout`) and blinded (`blinded_vout`) output records. -/
structure LOutputScope where
  vout : LTransactionOutput
  blinded_vout : LTransactionOutput
deriving DecidableEq, Repr

/-- `GlobalLTransactionView._skip_output`: skip the 33-byte asset, the
value (8 or 32 payload bytes after a 1-byte tag), the optional ecdh
pubkey, and the compact-length-prefixed scriptpubkey. -/
def skip_output (s : ByteStream) : Except PErr ByteStream := do
  let s := s.seekRel 33
  let (c, s) := s.read 1
  let s := if c ≠ [0x01] then s.seekRel 32 else s.seekRel 8
  let (c2, s) := s.read 1
  let s := if c2 ≠ [0x00] then s.seekRel 32 else s
  let (l, s) ← compactReadFrom s
  return s.seekRel l

/-- Apply `skip_input` `k` times, discarding the byte counts (the loop in
`GlobalLTransactionView.vin`). -/
def skipInputs : ByteStream → Nat → Except PErr ByteStream
  | s, 0 => .ok s
  | s, k + 1 => do
    let (_, s') ← skip_input s
    skipInputs s' k

/-- Apply `skip_input` `k` times, accumulating the reported byte counts on
top of `off` (the loop in `GlobalLTransactionView.num_vout_offset`). -/
def skipInputsOff : ByteStream → Nat → Nat → Except PErr Nat
  | _, off, 0 => .ok off
  | s, off, k + 1 => do
    let (c, s') ← skip_input s
    skipInputsOff s' (off + c) k

/-- Apply `skip_output` `k` times (the loop in
`GlobalLTransactionView.vout`). -/
def skipOutputs : ByteStream → Nat → Except PErr ByteStream
  | s, 0 => .ok s
  | s, k + 1 => do
    let s' ← skip_output s
    skipOutputs s' k

/-- The global unsigned-transaction stream view.  The stream is the PSET's
embedded transaction record; `readInput`/`readOutput` are modelled from
the spec: the external `LTransactionInput.read_from` /
`LTransactionOutput.read_from` deserializers, consuming bytes at the
stream cursor. -/
structure GlobalLTransactionView where
  stream : ByteStream
  readInput : ByteStream → Except PErr (LTransactionInput × ByteStream)
  readOutput : ByteStream → Except PErr (LTransactionOutput × ByteStream)

namespace GlobalLTransactionView

/-- `NUM_VIN_OFFSET = 5` (version + marker), a structural constant. -/
def NUM_VIN_OFFSET : Nat := 5

/-- Modelled from the spec: the parent view's `num_vin`, a compact-size
integer read at offset `NUM_VIN_OFFSET`. -/
def num_vin (t : GlobalLTransactionView) : Except PErr Nat := do
  let (n, _) ← compactReadFrom { t.stream with pos := NUM_VIN_OFFSET }
  return n

/-- Modelled from the spec: the parent view's `vin0_offset`,
`NUM_VIN_OFFSET` plus the encoded length of `num_vin`. -/
def vin0_offset (t : GlobalLTransactionView) : Except PErr Nat := do
  let n ← t.num_vin
  return NUM_VIN_OFFSET + compactEncodedLength n

/-- `num_vout_offset`: starting at `vin0_offset`, accumulate the byte
counts reported by `_skip_input` over all `num_vin` inputs. -/
def num_vout_offset (t : GlobalLTransactionView) : Except PErr Nat := do
  let n ← t.num_vin
  let off ← t.vin0_offset
  skipInputsOff { t.stream with pos := off } off n

/-- `num_vout`: a compact-size integer read at `num_vout_offset`. -/
def num_vout (t : GlobalLTransactionView) : Except PErr Nat := do
  let o ← t.num_vout_offset
  let (m, _) ← compactReadFrom { t.stream with pos := o }
  return m

/-- `vout0_offset = num_vout_offset + len(compact.to_bytes(num_vout))`. -/
def vout0_offset (t : GlobalLTransactionView) : Except PErr Nat := do
  let o ← t.num_vout_offset
  let m ← t.num_vout
  return o + compactEncodedLength m

/-- `GlobalLTransactionView.vin(i)`: bounds check (the `i < 0` test
short-circuits before `num_vin` is computed, as Python's `or` does), then
skip `i` inputs from `vin0_offset` and deserialize the next one. -/
def vin (t : GlobalLTransactionView) (i : Int) : Except PErr LTransactionInput := do
  if i < 0 then throw PErr.invalidIndex
  let n ← t.num_vin
  if (n : Int) ≤ i then throw PErr.invalidIndex
  let off ← t.vin0_offset
  let s ← skipInputs { t.stream with pos := off } i.toNat
  let (inp, _) ← t.readInput s
  return inp

/-- `GlobalLTransactionView.vout(i)`: bounds check, then skip `i` outputs
from `vout0_offset` and deserialize the next one. -/
def vout (t : GlobalLTransactionView) (i : Int) : Except PErr LTransactionOutput := do
  if i < 0 then throw PErr.invalidIndex
  let m ← t.num_vout
  if (m : Int) ≤ i then throw PErr.invalidIndex
  let off ← t.vout0_offset
  let s ← skipOutputs { t.stream with pos := off } i.toNat
  let (out, _) ← t.readOutput s
  return out

end GlobalLTransactionView

/-- Symbolic byte strings: raw bytes, concatenation, and SHA-256 treated
as a free constructor, so theorems can speak about exactly which bytes
enter each digest. -/
inductive BStr where
  | raw : List Nat → BStr
  | cat : BStr → BStr → BStr
  | sha256 : BStr → BStr
deriving DecidableEq, Repr

/-- Concatenate a sequence of hash-accumulator updates into one symbolic
byte string (`h.update(c₁); …; h.update(cₙ)` feeds `c₁ ⋯ cₙ`). -/
def catList : List BStr → BStr
  | [] => .raw []
  | [b] => b
  | b :: bs => .cat b (catList bs)

namespace SIGHASH

/-- Modelled from the spec: the standard sighash base-type constants of
the flag-decoder collaborator (§4.3 step 2, §6). -/
def DEFAULT : Nat := 0x00

/-- Modelled from the spec: standard sighash constant. -/
def ALL : Nat := 0x01

/-- Modelled from the spec: standard sighash constant. -/
def NONE : Nat := 0x02

/-- Modelled from the spec: standard sighash constant. -/
def SINGLE : Nat := 0x03

/-- Modelled from the spec: standard sighash modifier bit. -/
def ANYONECANPAY : Nat := 0x80

end SIGHASH

namespace LSIGHASH

/-- Modelled from the spec: `LSIGHASH.ALL` coincides with the standard
`SIGHASH.ALL`. -/
def ALL : Nat := SIGHASH.ALL

/-- Modelled from the spec: the Liquid-specific RANGEPROOF sighash bit. -/
def RANGEPROOF : Nat := 0x40

/-- Modelled from the spec: the sighash-flag decoder collaborator (§6) —
given a raw sighash value, strip the ANYONECANPAY and RANGEPROOF bits and
require the remaining base type to be one of DEFAULT/ALL/NONE/SINGLE,
failing on reserved or invalid bit combinations. -/
def check (sighash : Nat) : Except PErr (Nat × Bool × Bool) :=
  let anyonecanpay : Bool := sighash &&& SIGHASH.ANYONECANPAY != 0
  let sh1 := if anyonecanpay then sighash ^^^ SIGHASH.ANYONECANPAY else sighash
  let hash_rangeproofs : Bool := sh1 &&& RANGEPROOF != 0
  let sh2 := if hash_rangeproofs then sh1 ^^^ RANGEPROOF else sh1
  if sh2 = SIGHASH.DEFAULT ∨ sh2 = SIGHASH.ALL ∨ sh2 = SIGHASH.NONE ∨ sh2 = SIGHASH.SINGLE
  then .ok (sh2, anyonecanpay, hash_rangeproofs)
  else .error .formatError

end LSIGHASH

/-- The PSET view.  `num_inputs`/`num_outputs`, the per-input key/value
scopes (`scopeGet i key`, modelled from the spec's generic-container
collaborator: lookup by a 1-byte key-type tag returning optional raw
bytes), the per-output scopes (`outputScope`), the global `tx_version`
and `locktime`, and the container's `hash_prevouts()`/`hash_sequence()`
digests (modelled from the spec as opaque external digests) are the
state the source methods consume.  Hash caches start cleared
(`clear_cache` sets them to `None`), so the memoized accessors below are
given both as the computed value and, for the memoization claim, as an
explicit cache-threading step function. -/
structure PSETView where
  num_inputs : Nat
  num_outputs : Nat
  tx : Option GlobalLTransactionView
  scopeGet : Nat → Nat → Option (List Nat)
  outputScope : Nat → LOutputScope
  tx_version : Nat
  locktime : Nat
  hash_prevouts : BStr
  hash_sequence : BStr

namespace PSETView

/-- `PSETView.vin(i)`: bounds check against `num_inputs` (the `i < 0` test
short-circuits first), then delegate to the embedded transaction view if
present; otherwise read txid (un-reversed), vout (little-endian) and
sequence (little-endian, Python-falsy default `b"\xFF\xFF\xFF\xFF"`) from
the per-input scope.  A missing txid or vout field is a `TypeError` in the
source, modelled as a format error. -/
def vin (p : PSETView) (i : Int) : Except PErr LTransactionInput := do
  if i < 0 then throw PErr.invalidIndex
  if (p.num_inputs : Int) ≤ i then throw PErr.invalidIndex
  match p.tx with
  | some t => t.vin i
  | none =>
    let tv ← match p.scopeGet i.toNat 0x0e with
      | some v => pure v
      | none => throw PErr.formatError
    let txid := tv.reverse
    let vv ← match p.scopeGet i.toNat 0x0f with
      | some v => pure v
      | none => throw PErr.formatError
    let vout := fromLE vv
    let sv := match p.scopeGet i.toNat 0x10 with
      | none => [0xFF, 0xFF, 0xFF, 0xFF]
      | some v => if v = [] then [0xFF, 0xFF, 0xFF, 0xFF] else v
    let sequence := fromLE sv
    return { txid := txid, vout := vout, sequence := sequence }

/-- Modelled from the spec: `PSBTView.output(i)`, the generic container's
per-output record accessor, bounds-checked against `num_outputs`. -/
def output (p : PSETView) (i : Int) : Except PErr LOutputScope :=
  if i < 0 ∨ (p.num_outputs : Int) ≤ i then .error PErr.invalidIndex
  else .ok (p.outputScope i.toNat)

/-- `PSETView.vout(i) = output(i).vout`. -/
def vout (p : PSETView) (i : Int) : Except PErr LTransactionOutput :=
  (p.output i).map (·.vout)

/-- `PSETView.blinded_vout(i) = output(i).blinded_vout`. -/
def blinded_vout (p : PSETView) (i : Int) : Except PErr LTransactionOutput :=
  (p.output i).map (·.blinded_vout)

/-- `hash_issuances()` (value on a cleared cache): SHA-256 of
`num_inputs` zero bytes. -/
def hash_issuances (p : PSETView) : BStr :=
  .sha256 (.raw (List.replicate p.num_inputs 0))

/-- `hash_issuances()` with its memoization made explicit: on a cold cache
compute and store the digest, on a warm cache return it unchanged. -/
def hash_issuances_step (p : PSETView) (cache : Option BStr) : BStr × Option BStr :=
  match cache with
  | none =>
    let d := BStr.sha256 (.raw (List.replicate p.num_inputs 0))
    (d, some d)
  | some d => (d, some d)

/-- `hash_rangeproofs()` (value on a cleared cache): SHA-256 over each
blinded output's range proof then surjection proof, in index order. -/
def hash_rangeproofs (p : PSETView) : BStr :=
  .sha256 (catList ((List.range p.num_outputs).flatMap fun i =>
    [.raw (p.outputScope i).blinded_vout.rangeProofSerialized,
     .raw (p.outputScope i).blinded_vout.surjProofSerialized]))

/-- `hash_outputs()` (value on a cleared cache): SHA-256 over each blinded
output's full serialization, in index order. -/
def hash_outputs (p : PSETView) : BStr :=
  .sha256 (catList ((List.range p.num_outputs).map fun i =>
    .raw (p.outputScope i).blinded_vout.serialized))

end PSETView

namespace PSETView

/-- The exact sequence of `h.update(...)` chunks `sighash_segwit` feeds to
its rolling SHA-256 once the flag decode (`sh`, `anyonecanpay`,
`hash_rangeproofs`) and the signed input `inp` are at hand, line by line
from the source: version; prevouts-or-zero; sequence-or-zero; issuances;
the input's txid (re-reversed), vout and scriptpubkey; the value (tagged
8-byte big-endian for an integer, verbatim for commitment bytes); the
input's sequence; the outputs term; locktime; the raw flags. -/
def sighash_msg (p : PSETView) (input_index : Int) (script_pubkey : List Nat)
    (value : Nat ⊕ List Nat) (sighash : Nat) (sh : Nat)
    (anyonecanpay hash_rangeproofs : Bool) (inp : LTransactionInput) : List BStr :=
  let zero : BStr := .raw (List.replicate 32 0)
  [BStr.raw (toLE 4 p.tx_version)]
  ++ (if anyonecanpay then [zero] else [.sha256 p.hash_prevouts])
  ++ (if anyonecanpay ∨ sh = SIGHASH.NONE ∨ sh = SIGHASH.SINGLE then [zero]
      else [.sha256 p.hash_sequence])
  ++ [.sha256 p.hash_issuances, .raw inp.txid.reverse,
      .raw (toLE 4 inp.vout), .raw script_pubkey]
  ++ [(match value with
       | .inl n => BStr.raw (0x01 :: toBE 8 n)
       | .inr bs => BStr.raw bs)]
  ++ [.raw (toLE 4 inp.sequence)]
  ++ (if ¬(sh = SIGHASH.NONE ∨ sh = SIGHASH.SINGLE) then
        [BStr.sha256 p.hash_outputs]
        ++ (if hash_rangeproofs then [BStr.sha256 p.hash_rangeproofs] else [])
      else if sh = SIGHASH.SINGLE ∧ input_index < (p.num_outputs : Int) then
        [BStr.sha256 (.sha256 (.raw (p.outputScope input_index.toNat).blinded_vout.serialized))]
        ++ (if hash_rangeproofs then
              [BStr.sha256 (.sha256 (.raw (p.outputScope input_index.toNat).blinded_vout.witnessSerialized))]
            else [])
      else [zero])
  ++ [.raw (toLE 4 p.locktime), .raw (toLE 4 sighash)]

/-- `sighash_segwit` up to the final double hash: bounds check, flag
decode, fetch the signed input, then the update sequence `sighash_msg`. -/
def sighash_segwit_updates (p : PSETView) (input_index : Int)
    (script_pubkey : List Nat) (value : Nat ⊕ List Nat) (sighash : Nat) :
    Except PErr (List BStr) := do
  if input_index < 0 ∨ (p.num_inputs : Int) ≤ input_index then
    throw PErr.invalidIndex
  let (sh, anyonecanpay, hash_rangeproofs) ← LSIGHASH.check sighash
  let inp ← p.vin input_index
  return p.sighash_msg input_index script_pubkey value sighash sh anyonecanpay hash_rangeproofs inp

/-- `PSETView.sighash_segwit`: the double SHA-256 of the accumulated
update sequence. -/
def sighash_segwit (p : PSETView) (input_index : Int)
    (script_pubkey : List Nat) (value : Nat ⊕ List Nat) (sighash : Nat) :
    Except PErr BStr :=
  (p.sighash_segwit_updates input_index script_pubkey value sighash).map
    fun l => .sha256 (.sha256 (catList l))

/-- `sighash_segwit` called without an explicit `sighash` argument: the
Python default is `LSIGHASH.ALL | LSIGHASH.RANGEPROOF`. -/
def sighash_segwit_default (p : PSETView) (input_index : Int)
    (script_pubkey : List Nat) (value : Nat ⊕ List Nat) : Except PErr BStr :=
  p.sighash_segwit input_index script_pubkey value (LSIGHASH.ALL ||| LSIGHASH.RANGEPROOF)

/-- `PSETView.sighash_legacy`: `raise NotImplementedError()`. -/
def sighash_legacy (_p : PSETView) (_input_index : Int)
    (_script_pubkey : List Nat) (_sighash : Nat) : Except PErr BStr :=
  .error PErr.notImplemented

/-- `PSETView.sighash_taproot`: `raise NotImplementedError()`. -/
def sighash_taproot (_p : PSETView) (_input_index : Int)
    (_script_pubkeys : List (List Nat)) (_values : List Nat) (_sighash : Nat) :
    Except PErr BStr :=
  .error PErr.notImplemented

end PSETView

/-- The byte count `skip_commitment` consumes, as a function of the tag
byte found at the cursor. -/
def commitmentLen (tag : Nat) : Nat :=
  if tag = 0x00 then 1 else if tag = 0x01 then 9 else 33

/-- Helper: with a tag byte available at the cursor, `skip_commitment`
succeeds, returns `commitmentLen tag`, and advances the cursor by exactly
that count. -/
lemma skip_commitment_ok (s : ByteStream) (h : s.pos < s.data.length) :
    skip_commitment s =
      .ok (commitmentLen (s.data.getD s.pos 0),
           { s with pos := s.pos + commitmentLen (s.data.getD s.pos 0) }) := by
  set b := s.data.getD s.pos 0 with hb
  have hd : s.data.drop s.pos = b :: s.data.drop (s.pos + 1) := by
    rw [hb, List.getD_eq_getElem s.data 0 h]
    exact List.drop_eq_getElem_cons h
  simp only [skip_commitment, ByteStream.read, ByteStream.seekRel, hd, commitmentLen]
  by_cases h0 : b = 0x00
  · simp [h0]
  · by_cases h1 : b = 0x01
    · simp [h0, h1, Nat.add_assoc]
    · simp [h0, h1, Nat.add_assoc]

/-- Helper: with the cursor at or past the end of the data, the 1-byte tag
read comes back short and `skip_commitment` fails. -/
lemma skip_commitment_short (s : ByteStream) (h : s.data.length ≤ s.pos) :
    skip_commitment s = .error PErr.formatError := by
  have hd : s.data.drop s.pos = [] := List.drop_eq_nil_of_le h
  simp [skip_commitment, ByteStream.read, hd]

/-- C5: the commitment codec reads exactly one tag byte and consumes
exactly 1 total byte for tag `0x00`, 9 for tag `0x01`, and 33 for every
other tag value, returning that count with the stream positioned
immediately after the consumed region; it fails (with a format error)
exactly when the tag read comes back short. -/
theorem skip_commitment_consumes (s : ByteStream) :
    (s.data.length ≤ s.pos → skip_commitment s = .error PErr.formatError) ∧
    (∀ n, s.pos < s.data.length →
      n = (if s.data.getD s.pos 0 = 0x00 then 1
           else if s.data.getD s.pos 0 = 0x01 then 9 else 33) →
      skip_commitment s = .ok (n, { s with pos := s.pos + n })) := by
  refine ⟨skip_commitment_short s, fun n h hn => ?_⟩
  rw [skip_commitment_ok s h]
  rw [hn, commitmentLen]

/-- C5 witness: concrete streams exercising the three tag values and the
short-read failure. -/
theorem skip_commitment_consumes_witness :
    skip_commitment ⟨[0x00, 5, 5], 0⟩ = .ok (1, ⟨[0x00, 5, 5], 1⟩) ∧
    skip_commitment ⟨[0x01, 5, 5], 0⟩ = .ok (9, ⟨[0x01, 5, 5], 9⟩) ∧
    skip_commitment ⟨[0x07, 5, 5], 0⟩ = .ok (33, ⟨[0x07, 5, 5], 33⟩) ∧
    skip_commitment ⟨[5, 5], 2⟩ = .error PErr.formatError :=
  ⟨(skip_commitment_consumes ⟨[0x00, 5, 5], 0⟩).2 1 (by decide) (by decide),
   (skip_commitment_consumes ⟨[0x01, 5, 5], 0⟩).2 9 (by decide) (by decide),
   (skip_commitment_consumes ⟨[0x07, 5, 5], 0⟩).2 33 (by decide) (by decide),
   (skip_commitment_consumes ⟨[5, 5], 2⟩).1 (by decide)⟩

/-- Helper: whenever `skip_commitment` succeeds it leaves the data intact
and advances the cursor by exactly the count it returns. -/
lemma skip_commitment_pos {s s' : ByteStream} {n : Nat}
    (h : skip_commitment s = .ok (n, s')) :
    s'.data = s.data ∧ s'.pos = s.pos + n := by
  rcases Nat.lt_or_ge s.pos s.data.length with hl | hl
  · rw [skip_commitment_ok s hl] at h
    simp only [Except.ok.injEq, Prod.mk.injEq] at h
    obtain ⟨hn, hs⟩ := h
    subst hn
    subst hs
    exact ⟨rfl, rfl⟩
  · rw [skip_commitment_short s hl] at h
    exact absurd h (by simp)

/-- Helper: `pure` into the error monad is `Except.ok`. -/
lemma pErrPure {A : Type} (a : A) : (pure a : Except PErr A) = .ok a := rfl

/-- Helper: binding a successful result applies the continuation. -/
lemma pErrBindOk {A B : Type} (a : A) (f : A -> Except PErr B) :
    ((Except.ok a : Except PErr A) >>= f) = f a := rfl

/-- Helper: binding a failure propagates it. -/
lemma pErrBindErr {A B : Type} (e : PErr) (f : A -> Except PErr B) :
    ((Except.error e : Except PErr A) >>= f) = .error e := rfl

/-- C4: provided the txid and vout fields are present (36 readable bytes),
`_skip_input` consumes and reports exactly 41 bytes when the raw vout is
`0xFFFFFFFF` or has bit 31 clear; when vout differs from `0xFFFFFFFF` and
bit 31 is set it consumes and reports 41 + 64 bytes plus the lengths of
the two decode-or-skipped commitments. -/
theorem skip_input_consumes (s : ByteStream) (h : s.pos + 36 ≤ s.data.length) :
    (voutAt s = 0xFFFFFFFF ∨ voutAt s &&& (1 <<< 31) = 0 →
      skip_input s = .ok (41, { s with pos := s.pos + 41 })) ∧
    (∀ c1 t1 c2 t2, voutAt s ≠ 0xFFFFFFFF → voutAt s &&& (1 <<< 31) ≠ 0 →
      skip_commitment { s with pos := s.pos + 105 } = .ok (c1, t1) →
      skip_commitment t1 = .ok (c2, t2) →
      skip_input s = .ok (41 + 64 + c1 + c2, t2) ∧
        t2.pos = s.pos + (41 + 64 + c1 + c2)) := by
  have hlen : ((s.data.drop (s.pos + 32)).take 4).length = 4 := by
    rw [List.length_take, List.length_drop]
    omega
  have hvout : fromLE ((s.data.drop (s.pos + 32)).take 4) = voutAt s := rfl
  constructor
  · intro hcase
    rcases hcase with hff | hbit
    · simp [skip_input, ByteStream.read, ByteStream.seekRel, hlen, hvout, hff,
        pErrPure, Nat.add_assoc]
    · by_cases hff : voutAt s = 0xFFFFFFFF
      · simp [skip_input, ByteStream.read, ByteStream.seekRel, hlen, hvout, hff,
          pErrPure, Nat.add_assoc]
      · have hbit2 : voutAt s &&& 2147483648 = 0 := by simpa using hbit
        simp [skip_input, ByteStream.read, ByteStream.seekRel, hlen, hvout, hff,
          hbit2, pErrPure, Nat.add_assoc]
  · intro c1 t1 c2 t2 hff hbit hc1 hc2
    have h105 : s.pos + (32 + (4 + (5 + (32 + 32)))) = s.pos + 105 := by omega
    have hrun : skip_input s = .ok (41 + 64 + c1 + c2, t2) := by
      simp only [skip_input, ByteStream.read, ByteStream.seekRel, hlen, hvout,
        Nat.add_assoc, h105]
      rw [if_pos hff, if_pos hbit]
      rw [hc1, pErrBindOk, hc2, pErrBindOk]
      simp only [pErrPure, Except.ok.injEq, Prod.mk.injEq]
      exact ⟨by omega, trivial⟩
    have hp1 := skip_commitment_pos hc1
    have hp2 := skip_commitment_pos hc2
    have e1 : t1.pos = s.pos + 105 + c1 := hp1.2
    have e2 : t2.pos = t1.pos + c2 := hp2.2
    exact ⟨hrun, by omega⟩

/-- Sample bytes of one issuance-flagged input: txid, vout `0x80000001`,
empty scriptsig + sequence, 64-byte nonce+entropy, an explicit (9-byte)
amount commitment and a null (1-byte) token commitment. -/
def issuanceSample : List Nat :=
  List.replicate 32 0xAA ++ [1, 0, 0, 0x80] ++ [0, 1, 2, 3, 4] ++
    List.replicate 64 0 ++ [0x01] ++ List.replicate 8 0 ++ [0x00]

/-- Sample bytes of one plain input (vout 1) followed by trailing data. -/
def plainInputSample : List Nat :=
  List.replicate 32 0xAA ++ [1, 0, 0, 0] ++ [0, 1, 2, 3, 4] ++ [9, 9]

/-- C4 witness: the plain input is reported as 41 bytes; the issuance
input is reported as 41 + 64 + 9 + 1 bytes with the cursor right after. -/
theorem skip_input_consumes_witness :
    skip_input ⟨plainInputSample, 0⟩ = .ok (41, ⟨plainInputSample, 41⟩) ∧
    skip_input ⟨issuanceSample, 0⟩ =
      .ok (41 + 64 + 9 + 1, ⟨issuanceSample, 115⟩) :=
  ⟨(skip_input_consumes ⟨plainInputSample, 0⟩ (by decide)).1 (Or.inr (by decide)),
   ((skip_input_consumes ⟨issuanceSample, 0⟩ (by decide)).2
      9 ⟨issuanceSample, 114⟩ 1 ⟨issuanceSample, 115⟩
      (by decide) (by decide) (by rfl) (by rfl)).1⟩

/-- Helper: `throw` into the error monad is `Except.error`. -/
lemma pErrThrow {A : Type} (e : PErr) : (throw e : Except PErr A) = .error e := rfl

/-- C8: for every combination of arguments, `sighash_legacy` and
`sighash_taproot` fail with the unsupported-operation error, which is
distinct from the invalid-index and format errors, and never return a
digest. -/
theorem sighash_legacy_taproot_unsupported :
    (∀ (p : PSETView) (i : Int) (spk : List Nat) (sh : Nat),
      p.sighash_legacy i spk sh = .error PErr.notImplemented) ∧
    (∀ (p : PSETView) (i : Int) (spks : List (List Nat)) (vals : List Nat) (sh : Nat),
      p.sighash_taproot i spks vals sh = .error PErr.notImplemented) ∧
    PErr.notImplemented ≠ PErr.invalidIndex ∧
    PErr.notImplemented ≠ PErr.formatError :=
  ⟨fun _ _ _ _ => rfl, fun _ _ _ _ _ => rfl, by decide, by decide⟩

/-- C10: for every out-of-bounds `input_index`, `sighash_segwit` fails
with the invalid-index error for every `sighash` value whatsoever — in
particular also for flag combinations the flag decoder would reject,
since the index check comes first. -/
theorem sighash_segwit_index_before_flags (p : PSETView) (i : Int)
    (spk : List Nat) (value : Nat ⊕ List Nat) (sighash : Nat)
    (h : i < 0 ∨ (p.num_inputs : Int) ≤ i) :
    p.sighash_segwit i spk value sighash = .error PErr.invalidIndex := by
  simp [PSETView.sighash_segwit, PSETView.sighash_segwit_updates, h,
    pErrThrow, pErrBindErr, Except.map]

/-- A sample blinded output record. -/
def sampleOutput : LTransactionOutput :=
  { serialized := [0xD0], witnessSerialized := [0xD1],
    rangeProofSerialized := [0xD2], surjProofSerialized := [0xD3] }

/-- A sample per-output scope. -/
def sampleScope : LOutputScope :=
  { vout := { serialized := [0xC0], witnessSerialized := [0xC1],
              rangeProofSerialized := [0xC2], surjProofSerialized := [0xC3] },
    blinded_vout := sampleOutput }

/-- A sample PSET view with 2 inputs, 1 output, no embedded transaction
view, and per-input scopes carrying txid and vout but no sequence. -/
def sampleView : PSETView :=
  { num_inputs := 2, num_outputs := 1, tx := none,
    scopeGet := fun i k =>
      if k = 0x0e then some (List.replicate 32 (i + 1))
      else if k = 0x0f then some [1, 0, 0, 0] else none,
    outputScope := fun _ => sampleScope,
    tx_version := 2, locktime := 101,
    hash_prevouts := .raw [0x11], hash_sequence := .raw [0x22] }

/-- A second sample view: the same input count as `sampleView` but
different contents everywhere else. -/
def sampleView2 : PSETView :=
  { num_inputs := 2, num_outputs := 3, tx := none,
    scopeGet := fun _ _ => none,
    outputScope := fun _ => sampleScope,
    tx_version := 1, locktime := 7,
    hash_prevouts := .raw [0x33], hash_sequence := .raw [0x44] }

/-- C10 witness: index 5 is out of bounds for the 2-input sample view and
`0x05` is a flag combination the decoder rejects, yet the call fails with
the invalid-index error. -/
theorem sighash_segwit_index_before_flags_witness :
    LSIGHASH.check 0x05 = .error PErr.formatError ∧
    sampleView.sighash_segwit 5 [] (Sum.inl 0) 0x05 = .error PErr.invalidIndex :=
  ⟨by rfl,
   sighash_segwit_index_before_flags sampleView 5 [] (Sum.inl 0) 0x05 (Or.inr (by decide))⟩

/-- C6: on a cleared cache, `hash_issuances()` returns the SHA-256 of
exactly `num_inputs` zero bytes; a repeated call through the cache
returns the identical digest; the digest depends on nothing but the
input count; and the step function agrees with the pure accessor. -/
theorem hash_issuances_spec (p q : PSETView) (h : p.num_inputs = q.num_inputs) :
    (p.hash_issuances_step none).1 = .sha256 (.raw (List.replicate p.num_inputs 0)) ∧
    (p.hash_issuances_step (p.hash_issuances_step none).2).1 =
      (p.hash_issuances_step none).1 ∧
    (p.hash_issuances_step none).1 = (q.hash_issuances_step none).1 ∧
    (p.hash_issuances_step none).1 = p.hash_issuances := by
  simp [PSETView.hash_issuances_step, PSETView.hash_issuances, h]

/-- C6 witness: the two sample views share `num_inputs = 2` and differ in
everything else, yet produce the identical memoized digest. -/
theorem hash_issuances_spec_witness :
    (sampleView.hash_issuances_step none).1 = .sha256 (.raw (List.replicate 2 0)) ∧
    (sampleView.hash_issuances_step (sampleView.hash_issuances_step none).2).1 =
      (sampleView.hash_issuances_step none).1 ∧
    (sampleView.hash_issuances_step none).1 = (sampleView2.hash_issuances_step none).1 ∧
    (sampleView.hash_issuances_step none).1 = sampleView.hash_issuances :=
  hash_issuances_spec sampleView sampleView2 rfl

/-- C7: with no transaction stream view attached and the txid and vout
fields present in the per-input scope, `PSETView.vin(i)` succeeds and
builds the input with the txid byte-reversed from its stored form, the
vout decoded little-endian, and the sequence decoded little-endian with
the default `0xFFFFFFFF` whenever the sequence field is absent (no error
is raised for the missing field); a present 4-byte sequence field is
decoded little-endian. -/
theorem psetview_vin_fallback (p : PSETView) (i : Int) (tb vb : List Nat)
    (htx : p.tx = none) (h0 : 0 ≤ i) (hn : i < (p.num_inputs : Int))
    (ht : p.scopeGet i.toNat 0x0e = some tb)
    (hv : p.scopeGet i.toNat 0x0f = some vb) :
    (p.scopeGet i.toNat 0x10 = none →
      p.vin i = .ok { txid := tb.reverse, vout := fromLE vb,
                      sequence := 0xFFFFFFFF }) ∧
    (∀ sv, p.scopeGet i.toNat 0x10 = some sv → sv.length = 4 →
      p.vin i = .ok { txid := tb.reverse, vout := fromLE vb,
                      sequence := fromLE sv }) := by
  have h1 : ¬ i < 0 := not_lt.mpr h0
  have h2 : ¬ (p.num_inputs : Int) ≤ i := not_le.mpr hn
  constructor
  · intro hs
    simp [PSETView.vin, h1, h2, htx, ht, hv, hs, pErrThrow, pErrBindErr,
      pErrBindOk, pErrPure]
    decide
  · intro sv hs hlen
    have hne : sv ≠ [] := by
      intro hcontra
      rw [hcontra] at hlen
      simp at hlen
    simp [PSETView.vin, h1, h2, htx, ht, hv, hs, hne, pErrThrow, pErrBindErr,
      pErrBindOk, pErrPure]

/-- C7 witness: input 0 of `sampleView` has txid and vout fields but no
sequence field, and the construction defaults the sequence. -/
theorem psetview_vin_fallback_witness :
    sampleView.scopeGet 0 0x10 = none ∧
    sampleView.vin 0 = .ok { txid := (List.replicate 32 1).reverse,
                             vout := fromLE [1, 0, 0, 0],
                             sequence := 0xFFFFFFFF } :=
  ⟨rfl,
   (psetview_vin_fallback sampleView 0 (List.replicate 32 1) [1, 0, 0, 0]
      rfl (by decide) (by decide) (by rfl) (by rfl)).1 rfl⟩

/-- C3: for every index `i` with `i < 0` or `i` at least the respective
count (including count 0), `vin(i)` and `vout(i)` fail with the
invalid-index error, on both the transaction stream view and the PSET
view. -/
theorem vin_vout_invalid_index (t : GlobalLTransactionView) (p : PSETView) (i : Int) :
    (i < 0 → t.vin i = .error PErr.invalidIndex ∧
      t.vout i = .error PErr.invalidIndex ∧
      p.vin i = .error PErr.invalidIndex ∧
      p.vout i = .error PErr.invalidIndex) ∧
    (∀ n, t.num_vin = .ok n → (n : Int) ≤ i →
      t.vin i = .error PErr.invalidIndex) ∧
    (∀ m, t.num_vout = .ok m → (m : Int) ≤ i →
      t.vout i = .error PErr.invalidIndex) ∧
    ((p.num_inputs : Int) ≤ i → p.vin i = .error PErr.invalidIndex) ∧
    ((p.num_outputs : Int) ≤ i → p.vout i = .error PErr.invalidIndex) := by
  refine ⟨?_, ?_, ?_, ?_, ?_⟩
  · intro h
    refine ⟨?_, ?_, ?_, ?_⟩
    · simp [GlobalLTransactionView.vin, h, pErrThrow, pErrBindErr]
    · simp [GlobalLTransactionView.vout, h, pErrThrow, pErrBindErr]
    · simp [PSETView.vin, h, pErrThrow, pErrBindErr]
    · simp [PSETView.vout, PSETView.output, h, Except.map]
  · intro n hn hi
    have h1 : ¬ i < 0 := by omega
    simp [GlobalLTransactionView.vin, h1, hn, hi, pErrThrow, pErrBindErr,
      pErrBindOk, pErrPure]
  · intro m hm hi
    have h1 : ¬ i < 0 := by omega
    simp [GlobalLTransactionView.vout, h1, hm, hi, pErrThrow, pErrBindErr,
      pErrBindOk, pErrPure]
  · intro hi
    have h1 : ¬ i < 0 := by omega
    simp [PSETView.vin, h1, hi, pErrThrow, pErrBindErr, pErrPure]
    rfl
  · intro hi
    simp [PSETView.vout, PSETView.output, hi, Except.map]

/-- A sample global-transaction stream view over a minimal unsigned
transaction: 5 header bytes, `num_vin = 0`, `num_vout = 0`. -/
def sampleTxView : GlobalLTransactionView :=
  { stream := ⟨[0, 0, 0, 0, 0, 0, 0], 0⟩,
    readInput := fun _ => .error PErr.formatError,
    readOutput := fun _ => .error PErr.formatError }

/-- C3 witness: negative and too-large indices fail with the
invalid-index error on both views, including for count 0. -/
theorem vin_vout_invalid_index_witness :
    (sampleTxView.vin (-1) = .error PErr.invalidIndex ∧
      sampleTxView.vout (-1) = .error PErr.invalidIndex ∧
      sampleView.vin (-1) = .error PErr.invalidIndex ∧
      sampleView.vout (-1) = .error PErr.invalidIndex) ∧
    sampleTxView.vin 0 = .error PErr.invalidIndex ∧
    sampleTxView.vout 0 = .error PErr.invalidIndex ∧
    sampleView.vin 2 = .error PErr.invalidIndex ∧
    sampleView.vout 1 = .error PErr.invalidIndex :=
  ⟨(vin_vout_invalid_index sampleTxView sampleView (-1)).1 (by decide),
   (vin_vout_invalid_index sampleTxView sampleView 0).2.1 0 (by rfl) (by decide),
   (vin_vout_invalid_index sampleTxView sampleView 0).2.2.1 0 (by rfl) (by decide),
   (vin_vout_invalid_index sampleTxView sampleView 2).2.2.2.1 (by decide),
   (vin_vout_invalid_index sampleTxView sampleView 1).2.2.2.2 (by decide)⟩

/-- Helper: when the index is in bounds, the flag decode succeeds and the
signed input is available, `sighash_segwit_updates` succeeds with exactly
the `sighash_msg` update sequence. -/
lemma sighash_segwit_updates_ok (p : PSETView) (i : Int) (spk : List Nat)
    (value : Nat ⊕ List Nat) (shv sh : Nat) (acp rp : Bool)
    (inp : LTransactionInput)
    (hb : ¬(i < 0 ∨ (p.num_inputs : Int) ≤ i))
    (hchk : LSIGHASH.check shv = .ok (sh, acp, rp))
    (hvin : p.vin i = .ok inp) :
    p.sighash_segwit_updates i spk value shv =
      .ok (p.sighash_msg i spk value shv sh acp rp inp) := by
  simp [PSETView.sighash_segwit_updates, hb, hchk, hvin, pErrThrow,
    pErrBindErr, pErrBindOk, pErrPure]

/-- C1: whenever `sighash_segwit` runs to completion, the outputs term of
the accumulated digest is exactly: for a base type that is neither NONE
nor SINGLE, the SHA-256 of `hash_outputs()` plus, if the RANGEPROOF bit
is set, the SHA-256 of `hash_rangeproofs()`; for SINGLE with
`input_index < num_outputs`, the double SHA-256 of the targeted output's
serialization plus, if RANGEPROOF is set, the double SHA-256 of its
witness serialization; in every other case exactly 32 zero bytes —
followed only by the locktime and flag chunks. -/
theorem sighash_segwit_outputs_term (p : PSETView) (i : Int) (spk : List Nat)
    (value : Nat ⊕ List Nat) (shv sh : Nat) (acp rp : Bool)
    (inp : LTransactionInput)
    (hb : ¬(i < 0 ∨ (p.num_inputs : Int) ≤ i))
    (hchk : LSIGHASH.check shv = .ok (sh, acp, rp))
    (hvin : p.vin i = .ok inp) :
    ∃ pre : List BStr, pre.length = 9 ∧
      p.sighash_segwit_updates i spk value shv = .ok (pre ++
        (if ¬(sh = SIGHASH.NONE ∨ sh = SIGHASH.SINGLE) then
          [BStr.sha256 p.hash_outputs]
          ++ (if rp then [BStr.sha256 p.hash_rangeproofs] else [])
        else if sh = SIGHASH.SINGLE ∧ i < (p.num_outputs : Int) then
          [BStr.sha256 (.sha256 (.raw (p.outputScope i.toNat).blinded_vout.serialized))]
          ++ (if rp then
                [BStr.sha256 (.sha256 (.raw (p.outputScope i.toNat).blinded_vout.witnessSerialized))]
              else [])
        else [BStr.raw (List.replicate 32 0)]) ++
        [BStr.raw (toLE 4 p.locktime), BStr.raw (toLE 4 shv)]) := by
  refine ⟨[BStr.raw (toLE 4 p.tx_version)]
    ++ (if acp then [BStr.raw (List.replicate 32 0)] else [BStr.sha256 p.hash_prevouts])
    ++ (if acp ∨ sh = SIGHASH.NONE ∨ sh = SIGHASH.SINGLE then [BStr.raw (List.replicate 32 0)]
        else [BStr.sha256 p.hash_sequence])
    ++ [BStr.sha256 p.hash_issuances, .raw inp.txid.reverse,
        .raw (toLE 4 inp.vout), .raw spk]
    ++ [(match value with
         | .inl n => BStr.raw (0x01 :: toBE 8 n)
         | .inr bs => BStr.raw bs)]
    ++ [BStr.raw (toLE 4 inp.sequence)], ?_, ?_⟩
  · rcases value with n | bs <;> split_ifs <;> rfl
  · rw [sighash_segwit_updates_ok p i spk value shv sh acp rp inp hb hchk hvin]
    simp only [PSETView.sighash_msg, List.append_assoc]

/-- C1 witness: base type SINGLE on the sample view (2 inputs, 1 output),
signing input 0: the outputs term is the double SHA-256 of the targeted
output's serialization, with no rangeproof chunk (RANGEPROOF unset). -/
theorem sighash_segwit_outputs_term_witness :
    ∃ pre : List BStr, pre.length = 9 ∧
      sampleView.sighash_segwit_updates 0 [0x51] (Sum.inl 5) 3 = .ok (pre ++
        [BStr.sha256 (.sha256 (.raw [0xD0]))] ++
        [BStr.raw (toLE 4 101), BStr.raw (toLE 4 3)]) :=
  sighash_segwit_outputs_term sampleView 0 [0x51] (Sum.inl 5) 3 3 false false
    ⟨(List.replicate 32 1).reverse, 1, 0xFFFFFFFF⟩ (by decide) (by rfl) (by rfl)

/-- Helper: `toLE` always produces exactly `k` bytes. -/
lemma toLE_length (k : Nat) : ∀ n, (toLE k n).length = k := by
  induction k with
  | zero => intro n; rfl
  | succ k ih => intro n; simp [toLE, ih]

/-- Helper: `fromLE` on a cons. -/
lemma fromLE_cons (a : Nat) (l : List Nat) :
    fromLE (a :: l) = a + 256 * fromLE l := rfl

/-- Helper: the little-endian encoding round-trips for values that fit. -/
lemma fromLE_toLE (k : Nat) : ∀ n, n < 2 ^ (8 * k) → fromLE (toLE k n) = n := by
  induction k with
  | zero =>
    intro n h
    simp only [Nat.mul_zero, pow_zero, Nat.lt_one_iff] at h
    simp [toLE, fromLE, h]
  | succ k ih =>
    intro n h
    have hsplit : 2 ^ (8 * (k + 1)) = 2 ^ (8 * k) * 256 := by
      rw [Nat.mul_succ, pow_add]
      norm_num
    have hdiv : n / 256 < 2 ^ (8 * k) := by
      rw [Nat.div_lt_iff_lt_mul (by norm_num : 0 < 256)]
      omega
    rw [toLE, fromLE_cons, ih (n / 256) hdiv]
    omega

/-- C2: whenever `sighash_segwit` runs to completion, the chunk it feeds
for the spent-output value is, for an integer value, the tag byte `0x01`
followed by the 8-byte big-endian encoding of the value, and, for a raw
byte value (a confidential commitment), those bytes verbatim with no tag;
the encoding really is 8 bytes and big-endian (its reversal decodes back
little-endian to the value). -/
theorem sighash_segwit_value_encoding (p : PSETView) (i : Int) (spk : List Nat)
    (value : Nat ⊕ List Nat) (shv sh : Nat) (acp rp : Bool)
    (inp : LTransactionInput)
    (hb : ¬(i < 0 ∨ (p.num_inputs : Int) ≤ i))
    (hchk : LSIGHASH.check shv = .ok (sh, acp, rp))
    (hvin : p.vin i = .ok inp) :
    ∃ pre post : List BStr, pre.length = 7 ∧
      p.sighash_segwit_updates i spk value shv = .ok (pre ++
        [(match value with
          | .inl n => BStr.raw (0x01 :: toBE 8 n)
          | .inr bs => BStr.raw bs)] ++ post) ∧
      (∀ n, value = Sum.inl n →
        (toBE 8 n).length = 8 ∧
        (n < 2 ^ 64 → fromLE (toBE 8 n).reverse = n)) := by
  refine ⟨[BStr.raw (toLE 4 p.tx_version)]
    ++ (if acp then [BStr.raw (List.replicate 32 0)] else [BStr.sha256 p.hash_prevouts])
    ++ (if acp ∨ sh = SIGHASH.NONE ∨ sh = SIGHASH.SINGLE then [BStr.raw (List.replicate 32 0)]
        else [BStr.sha256 p.hash_sequence])
    ++ [BStr.sha256 p.hash_issuances, .raw inp.txid.reverse,
        .raw (toLE 4 inp.vout), .raw spk],
    [BStr.raw (toLE 4 inp.sequence)]
    ++ (if ¬(sh = SIGHASH.NONE ∨ sh = SIGHASH.SINGLE) then
          [BStr.sha256 p.hash_outputs]
          ++ (if rp then [BStr.sha256 p.hash_rangeproofs] else [])
        else if sh = SIGHASH.SINGLE ∧ i < (p.num_outputs : Int) then
          [BStr.sha256 (.sha256 (.raw (p.outputScope i.toNat).blinded_vout.serialized))]
          ++ (if rp then
                [BStr.sha256 (.sha256 (.raw (p.outputScope i.toNat).blinded_vout.witnessSerialized))]
              else [])
        else [BStr.raw (List.replicate 32 0)])
    ++ [BStr.raw (toLE 4 p.locktime), BStr.raw (toLE 4 shv)], ?_, ?_, ?_⟩
  · split_ifs <;> rfl
  · rw [sighash_segwit_updates_ok p i spk value shv sh acp rp inp hb hchk hvin]
    simp only [PSETView.sighash_msg, List.append_assoc]
  · intro n _
    refine ⟨by simp [toBE, toLE_length], fun h64 => ?_⟩
    rw [toBE, List.reverse_reverse]
    exact fromLE_toLE 8 n h64

/-- C2 witness: on the sample view, an integer value 5 contributes the
tagged big-endian chunk and a raw commitment `[0x08, 0x09]` contributes
verbatim. -/
theorem sighash_segwit_value_encoding_witness :
    (∃ pre post : List BStr, pre.length = 7 ∧
      sampleView.sighash_segwit_updates 0 [0x51] (Sum.inl 5) 1 = .ok (pre ++
        [BStr.raw (0x01 :: toBE 8 5)] ++ post) ∧
      (∀ n, (Sum.inl 5 : Nat ⊕ List Nat) = Sum.inl n →
        (toBE 8 n).length = 8 ∧
        (n < 2 ^ 64 → fromLE (toBE 8 n).reverse = n))) ∧
    (∃ pre post : List BStr, pre.length = 7 ∧
      sampleView.sighash_segwit_updates 0 [0x51] (Sum.inr [0x08, 0x09]) 1 = .ok (pre ++
        [BStr.raw [0x08, 0x09]] ++ post) ∧
      (∀ n, (Sum.inr [0x08, 0x09] : Nat ⊕ List Nat) = Sum.inl n →
        (toBE 8 n).length = 8 ∧
        (n < 2 ^ 64 → fromLE (toBE 8 n).reverse = n))) :=
  ⟨sighash_segwit_value_encoding sampleView 0 [0x51] (Sum.inl 5) 1 1 false false
      ⟨(List.replicate 32 1).reverse, 1, 0xFFFFFFFF⟩ (by decide) (by rfl) (by rfl),
   sighash_segwit_value_encoding sampleView 0 [0x51] (Sum.inr [0x08, 0x09]) 1 1 false false
      ⟨(List.replicate 32 1).reverse, 1, 0xFFFFFFFF⟩ (by decide) (by rfl) (by rfl)⟩

/-- C9: `sighash_segwit` without an explicit sighash argument uses
`LSIGHASH.ALL | LSIGHASH.RANGEPROOF` (= `0x41`), which decodes to base
type ALL with the RANGEPROOF bit set; the digest therefore covers both
the SHA-256 of `hash_outputs()` and the SHA-256 of `hash_rangeproofs()`,
and the trailing 4 little-endian flag bytes encode `ALL | RANGEPROOF`. -/
theorem sighash_segwit_default_flags (p : PSETView) (i : Int) (spk : List Nat)
    (value : Nat ⊕ List Nat) (inp : LTransactionInput)
    (hb : ¬(i < 0 ∨ (p.num_inputs : Int) ≤ i))
    (hvin : p.vin i = .ok inp) :
    LSIGHASH.ALL ||| LSIGHASH.RANGEPROOF = 0x41 ∧
    LSIGHASH.check (LSIGHASH.ALL ||| LSIGHASH.RANGEPROOF) =
      .ok (SIGHASH.ALL, false, true) ∧
    p.sighash_segwit_default i spk value = .ok (.sha256 (.sha256 (catList (
      [BStr.raw (toLE 4 p.tx_version), .sha256 p.hash_prevouts,
       .sha256 p.hash_sequence, .sha256 p.hash_issuances,
       .raw inp.txid.reverse, .raw (toLE 4 inp.vout), .raw spk]
      ++ [(match value with
           | .inl n => BStr.raw (0x01 :: toBE 8 n)
           | .inr bs => BStr.raw bs)]
      ++ [BStr.raw (toLE 4 inp.sequence),
          .sha256 p.hash_outputs, .sha256 p.hash_rangeproofs,
          .raw (toLE 4 p.locktime),
          .raw (toLE 4 (LSIGHASH.ALL ||| LSIGHASH.RANGEPROOF))])))) := by
  have hchk : LSIGHASH.check (LSIGHASH.ALL ||| LSIGHASH.RANGEPROOF) =
      .ok (SIGHASH.ALL, false, true) := by rfl
  refine ⟨rfl, hchk, ?_⟩
  rw [PSETView.sighash_segwit_default, PSETView.sighash_segwit,
    sighash_segwit_updates_ok p i spk value _ SIGHASH.ALL false true inp hb hchk hvin]
  simp [PSETView.sighash_msg, SIGHASH.ALL, SIGHASH.NONE, SIGHASH.SINGLE,
    Except.map]

/-- C9 witness: the default-argument call on the sample view, input 0,
with a raw commitment value. -/
theorem sighash_segwit_default_flags_witness :
    LSIGHASH.ALL ||| LSIGHASH.RANGEPROOF = 0x41 ∧
    LSIGHASH.check (LSIGHASH.ALL ||| LSIGHASH.RANGEPROOF) =
      .ok (SIGHASH.ALL, false, true) ∧
    sampleView.sighash_segwit_default 0 [0x51] (Sum.inr [0x08, 0x09]) =
      .ok (.sha256 (.sha256 (catList (
        [BStr.raw (toLE 4 2), .sha256 (.raw [0x11]),
         .sha256 (.raw [0x22]), .sha256 sampleView.hash_issuances,
         .raw ((List.replicate 32 1).reverse).reverse, .raw (toLE 4 1), .raw [0x51]]
        ++ [BStr.raw [0x08, 0x09]]
        ++ [BStr.raw (toLE 4 0xFFFFFFFF),
            .sha256 sampleView.hash_outputs, .sha256 sampleView.hash_rangeproofs,
            .raw (toLE 4 101), .raw (toLE 4 0x41)])))) :=
  sighash_segwit_default_flags sampleView 0 [0x51] (Sum.inr [0x08, 0x09])
    ⟨(List.replicate 32 1).reverse, 1, 0xFFFFFFFF⟩ (by decide) (by rfl)

/-- C8 witness: concrete calls on the sample view. -/
theorem sighash_legacy_taproot_unsupported_witness :
    sampleView.sighash_legacy 0 [0x51] 1 = .error PErr.notImplemented ∧
    sampleView.sighash_taproot 0 [[0x51]] [5] 0 = .error PErr.notImplemented :=
  ⟨sighash_legacy_taproot_unsupported.1 sampleView 0 [0x51] 1,
   sighash_legacy_taproot_unsupported.2.1 sampleView 0 [[0x51]] [5] 0⟩
